import Mathlib

/-!
Verification development for the Dlib ImageNet dataset preprocessor
(`create_db_stable_imagenet-1k.cpp`).

The C++ program is embedded shallowly:

* `std::string` values (file names, directory names, labels) are `List Char`;
  `size_t` arithmetic is `Nat` with an explicit `% 2 ^ 64` where the C++
  computation can wrap (`std::string::npos + 1`).
* A directory tree is a list of `dir_entry` (one per class subdirectory,
  carrying its name and the names of the files it contains), mirroring what
  `dlib::directory::get_dirs` / `get_files` enumerate.
* `dlib::matrix<rgb_pixel>` is the structure `Image`: the row/column counts
  reported by `nr()` / `nc()` together with the pixel grid.
* Image decoding (`dlib::load_image`) performs file I/O, so the builder takes
  the decoder as a function `FileName → Option Image`; `none` models the
  per-image exception path.
* The process-wide cancellation flag, set asynchronously by the interrupt
  handler and polled once per loop iteration, is a schedule `Nat → Bool`
  giving the value the loop reads at iteration `i`.
* `dlib::serialize` / `deserialize` are not part of this repository; they are
  modelled from the spec as a length-prefixed token stream (see below).
-/

namespace DlibImagenet

/-- One pixel of `dlib::rgb_pixel`: three colour channels. -/
structure rgb_pixel where
  red : Nat
  green : Nat
  blue : Nat
deriving DecidableEq, Repr

/-- A `dlib::matrix<rgb_pixel>`: the dimensions reported by `nr()`/`nc()`
and the pixel grid. -/
structure Image where
  nr : Nat
  nc : Nat
  data : List (List rgb_pixel)
deriving DecidableEq, Repr

instance : Inhabited Image := ⟨⟨0, 0, []⟩⟩

/-- A file or directory name (`std::string`), as a list of characters. -/
abbrev FileName := List Char

/-- One class subdirectory as the scanner sees it: its name and the names of
the files it contains (in directory-enumeration order). -/
structure dir_entry where
  name : FileName
  files : List FileName
deriving DecidableEq, Repr

/-- Structure `imagenet_info`: metadata for one scanned image. -/
structure imagenet_info where
  filename : FileName
  label : FileName
  numeric_label : Nat
deriving DecidableEq, Repr

/-- Structure `imagenet_dataset`: three parallel sequences. -/
structure imagenet_dataset where
  images : List Image
  labels : List FileName
  numeric_labels : List Nat
deriving DecidableEq, Repr

/-- ASCII lowercasing of one character, as done by `dlib::tolower` under the
C locale. -/
def to_lower_char (c : Char) : Char :=
  if 'A' ≤ c ∧ c ≤ 'Z' then Char.ofNat (c.toNat + 32) else c

/-- Lowercase a whole string (`dlib::tolower` on `std::string`). -/
def tolower (s : List Char) : List Char := s.map to_lower_char

/-- Value of `std::string::npos` for 64-bit `size_t`. -/
def npos : Nat := 2 ^ 64 - 1

/-- Embedding of `extract_desc_class`: take everything after the first
underscore of the directory name.  `find` yields `npos` when there is no
underscore, and `npos + 1` wraps to `0` in `size_t` arithmetic, so
`substr` then starts at position 0. -/
def extract_desc_class (dir_name : FileName) : FileName :=
  let underscore_pos : Nat :=
    match dir_name.findIdx? (fun c => c = '_') with
    | some i => i
    | none => npos
  dir_name.drop ((underscore_pos + 1) % 2 ^ 64)

/-- The file-selection condition of the scanner's inner loop:
`name.size() > 4 && tolower(name.substr(name.size() - 4)) == ".jpg"`. -/
def is_jpg_file (name : FileName) : Bool :=
  decide (4 < name.length) &&
    decide (tolower (name.drop (name.length - 4)) = ".jpg".toList)

/-- Inner loop of `get_imagenet_listing`: walk the files of one class
directory, pushing a record for each file passing the JPG test.  `label`
and `k` are the current `temp.label` and `temp.numeric_label`. -/
def scan_files (files : List FileName) (label : FileName) (k : Nat) :
    List imagenet_info :=
  match files with
  | [] => []
  | f :: rest =>
    if is_jpg_file f then
      ⟨f, label, k⟩ :: scan_files rest label k
    else
      scan_files rest label k

/-- Outer loop of `get_imagenet_listing`: walk the (already sorted) class
directories; `temp.numeric_label` starts at `k` and is incremented once per
directory, after its files are processed. -/
def scan_dirs : List dir_entry → Nat → List imagenet_info
  | [], _ => []
  | d :: rest, k =>
    scan_files d.files (extract_desc_class d.name) k ++ scan_dirs rest (k + 1)

/-- The comparator passed to `std::sort`: directory names in ascending
lexicographic order (as a Bool-valued `≤`, the form `mergeSort` takes). -/
def name_le (a b : dir_entry) : Bool := decide (a.name ≤ b.name)

/-- Sorting of the subdirectory list by name (`std::sort` with the
name comparator). -/
def sort_dirs (dirs : List dir_entry) : List dir_entry :=
  dirs.mergeSort name_le

/-- Embedding of `get_imagenet_listing`: sort the class subdirectories by
name, then scan them in order with numeric labels starting at 0. -/
def get_imagenet_listing (dirs : List dir_entry) : List imagenet_info :=
  scan_dirs (sort_dirs dirs) 0

/-- Pixel lookup in the grid, row-major (out-of-range reads default to black;
in-range accesses are the only ones the resampler performs on well-formed
matrices). -/
def pixel_at (img : Image) (r c : Nat) : rgb_pixel :=
  (img.data.getD r []).getD c ⟨0, 0, 0⟩

/-- Fixed-point source coordinate (scaled by 1024) of destination index `i`
along an axis of `src` source samples and `dst` destination samples. -/
def src_coord_1024 (i src dst : Nat) : Nat :=
  if dst ≤ 1 then 0 else i * (src - 1) * 1024 / (dst - 1)

/-- Blend of two channel values with fixed-point weight `w` out of 1024. -/
def lerp_1024 (a b w : Nat) : Nat := ((1024 - w) * a + w * b) / 1024

/-- One bilinearly interpolated pixel of the resized image. -/
def bilinear_sample (img : Image) (r c rows cols : Nat) : rgb_pixel :=
  let sr := src_coord_1024 r img.nr rows
  let sc := src_coord_1024 c img.nc cols
  let r0 := sr / 1024
  let c0 := sc / 1024
  let r1 := min (r0 + 1) (img.nr - 1)
  let c1 := min (c0 + 1) (img.nc - 1)
  let fr := sr % 1024
  let fc := sc % 1024
  let p00 := pixel_at img r0 c0
  let p01 := pixel_at img r0 c1
  let p10 := pixel_at img r1 c0
  let p11 := pixel_at img r1 c1
  { red := lerp_1024 (lerp_1024 p00.red p01.red fc) (lerp_1024 p10.red p11.red fc) fr
    green := lerp_1024 (lerp_1024 p00.green p01.green fc) (lerp_1024 p10.green p11.green fc) fr
    blue := lerp_1024 (lerp_1024 p00.blue p01.blue fc) (lerp_1024 p10.blue p11.blue fc) fr }

/-- Modelled from the spec: `dlib::resize_image` with
`interpolate_bilinear` is outside this repository (spec treats resampling
internals as an opaque collaborator).  The destination matrix is constructed
with `rows` rows and `cols` columns, exactly as
`matrix<rgb_pixel> resized(rows, cols)` does, and every destination pixel is
a bilinear blend of the four surrounding source pixels. -/
def resize_image_bilinear (img : Image) (rows cols : Nat) : Image :=
  { nr := rows
    nc := cols
    data := (List.range rows).map fun r =>
      (List.range cols).map fun c => bilinear_sample img r c rows cols }

/-- Embedding of `load_and_resize_image`, after decoding: resize exactly when
the decoded dimensions differ from the target, otherwise return the decoded
matrix unchanged.  The decode step itself (`dlib::load_image`, file I/O) is
factored out: `img` is the decoded matrix. -/
def load_and_resize_image (img : Image) (rows cols : Nat) : Image :=
  if img.nr ≠ rows ∨ img.nc ≠ cols then resize_image_bilinear img rows cols
  else img

/-- Modelled from the spec: the on-disk encoding produced by
`dlib::serialize` is not part of this repository and the spec calls it an
opaque, self-describing sequential encoding (length-prefixed sequences, §6).
The stream is modelled as a list of tokens. -/
inductive Token where
  | nat : Nat → Token
  | ch : Char → Token
deriving DecidableEq, Repr

/-- Encoding of one unsigned integer. -/
def serialize_nat (n : Nat) : List Token := [Token.nat n]

/-- Encoding of one string: length prefix, then its characters. -/
def serialize_string (s : FileName) : List Token :=
  Token.nat s.length :: s.map Token.ch

/-- Encoding of one pixel: its three channels. -/
def serialize_pixel (p : rgb_pixel) : List Token :=
  [Token.nat p.red, Token.nat p.green, Token.nat p.blue]

/-- Encoding of one pixel row: length prefix, then the pixels. -/
def serialize_row (row : List rgb_pixel) : List Token :=
  Token.nat row.length :: row.flatMap serialize_pixel

/-- Encoding of one matrix: its dimensions, then the length-prefixed rows. -/
def serialize_image (img : Image) : List Token :=
  Token.nat img.nr :: Token.nat img.nc :: Token.nat img.data.length ::
    img.data.flatMap serialize_row

/-- Encoding of a sequence: length prefix, then the encoded elements. -/
def serialize_vec {α : Type} (enc : α → List Token) (v : List α) : List Token :=
  Token.nat v.length :: v.flatMap enc

/-- The single write of `create_imagenet_dataset`:
`serialize(output_file) << dataset.images << dataset.labels
<< dataset.numeric_labels` — the three sequences in that fixed order. -/
def serialize_dataset (ds : imagenet_dataset) : List Token :=
  serialize_vec serialize_image ds.images ++
    serialize_vec serialize_string ds.labels ++
      serialize_vec serialize_nat ds.numeric_labels

/-- Decoder for one unsigned integer. -/
def read_nat : List Token → Option (Nat × List Token)
  | Token.nat n :: rest => some (n, rest)
  | _ => none

/-- Decoder for one character. -/
def read_char : List Token → Option (Char × List Token)
  | Token.ch c :: rest => some (c, rest)
  | _ => none

/-- Decoder for exactly `n` consecutive elements. -/
def read_count {α : Type} (readElem : List Token → Option (α × List Token)) :
    Nat → List Token → Option (List α × List Token)
  | 0, ts => some ([], ts)
  | n + 1, ts => do
    let (x, ts1) ← readElem ts
    let (xs, ts2) ← read_count readElem n ts1
    some (x :: xs, ts2)

/-- Decoder for a length-prefixed sequence. -/
def read_vec {α : Type} (readElem : List Token → Option (α × List Token))
    (ts : List Token) : Option (List α × List Token) := do
  let (n, ts1) ← read_nat ts
  read_count readElem n ts1

/-- Decoder for one string. -/
def read_string (ts : List Token) : Option (FileName × List Token) :=
  read_vec read_char ts

/-- Decoder for one pixel. -/
def read_pixel (ts : List Token) : Option (rgb_pixel × List Token) := do
  let (r, ts1) ← read_nat ts
  let (g, ts2) ← read_nat ts1
  let (b, ts3) ← read_nat ts2
  some (⟨r, g, b⟩, ts3)

/-- Decoder for one pixel row. -/
def read_row (ts : List Token) : Option (List rgb_pixel × List Token) :=
  read_vec read_pixel ts

/-- Decoder for one matrix. -/
def read_image (ts : List Token) : Option (Image × List Token) := do
  let (nr, ts1) ← read_nat ts
  let (nc, ts2) ← read_nat ts1
  let (rows, ts3) ← read_vec read_row ts2
  some (⟨nr, nc, rows⟩, ts3)

/-- The single read of `load_stable_imagenet_1k`:
`deserialize(dataset_file) >> dataset.images >> dataset.labels
>> dataset.numeric_labels` — the three sequences in the same fixed order. -/
def deserialize_dataset (ts : List Token) : Option imagenet_dataset := do
  let (images, ts1) ← read_vec read_image ts
  let (labels, ts2) ← read_vec read_string ts1
  let (numeric_labels, _) ← read_vec read_nat ts2
  some ⟨images, labels, numeric_labels⟩

/-- The dataset before the ingestion loop runs. -/
def empty_dataset : imagenet_dataset := ⟨[], [], []⟩

/-- The three `push_back` calls of one successful loop iteration. -/
def push_sample (ds : imagenet_dataset) (img : Image) (lab : FileName)
    (nl : Nat) : imagenet_dataset :=
  ⟨ds.images ++ [img], ds.labels ++ [lab], ds.numeric_labels ++ [nl]⟩

/-- The ingestion loop of `create_imagenet_dataset`:
`for (i = 0; i < listing.size() && !g_terminate_flag.load(); ++i)`.
`flag i` is the value the loop condition reads before iteration `i`;
`decode f` is the decoded-and-resized image for file `f`, `none` when
`load_and_resize_image` throws (the caught per-image exception: nothing is
appended and the loop continues). -/
def ingest_loop (decode : FileName → Option Image) (flag : Nat → Bool) :
    List imagenet_info → Nat → imagenet_dataset → imagenet_dataset
  | [], _, acc => acc
  | info :: rest, i, acc =>
    if flag i then acc
    else
      match decode info.filename with
      | some img =>
        ingest_loop decode flag rest (i + 1)
          (push_sample acc img info.label info.numeric_label)
      | none => ingest_loop decode flag rest (i + 1) acc

/-- Embedding of `create_imagenet_dataset`.  `read_image_file` is the raw
decoder (`dlib::load_image`); `flag` the cancellation schedule; `dirs` the
directory tree under `images_folder`.  The returned token stream is the
content written to `output_file`; the error case models the thrown
`dlib::error`, before which nothing is written. -/
def create_imagenet_dataset (read_image_file : FileName → Option Image)
    (flag : Nat → Bool) (images_folder : FileName) (dirs : List dir_entry)
    (resize_rows resize_cols : Nat) : Except FileName (List Token) :=
  let image_listing := get_imagenet_listing dirs
  if image_listing.isEmpty then
    Except.error ("No images found in directory: ".toList ++ images_folder)
  else
    Except.ok (serialize_dataset
      (ingest_loop
        (fun f => (read_image_file f).map
          fun img => load_and_resize_image img resize_rows resize_cols)
        flag image_listing 0 empty_dataset))

/-- The split loop of `load_stable_imagenet_1k`: iterate over the shuffled
index list; positions before `split_point` go to the training vectors, the
rest to the testing vectors.  Only the numeric labels are propagated,
exactly as in the source. -/
def split_loop (images : List Image) (nlabels : List Nat) (split_point : Nat) :
    List Nat → Nat → List Image × List Nat × List Image × List Nat
  | [], _ => ([], [], [], [])
  | idx :: rest, i =>
    let r := split_loop images nlabels split_point rest (i + 1)
    if i < split_point then
      (images.getD idx default :: r.1, nlabels.getD idx 0 :: r.2.1,
        r.2.2.1, r.2.2.2)
    else
      (r.1, r.2.1, images.getD idx default :: r.2.2.1,
        nlabels.getD idx 0 :: r.2.2.2)

/-- Embedding of `load_stable_imagenet_1k`.  `ts` is the serialized stream
read from `dataset_file`; `indices` the shuffled index vector (the result of
`std::shuffle`, a permutation of `0..N-1`); `split_point` the value of
`static_cast<size_t>(dataset.images.size() * (1.0 - test_fraction))`, taken
as a parameter because that expression is IEEE-754 double arithmetic.
Returns `(training_images, training_labels, testing_images,
testing_labels)`. -/
def load_stable_imagenet_1k (ts : List Token) (indices : List Nat)
    (split_point : Nat) :
    Option (List Image × List Nat × List Image × List Nat) :=
  (deserialize_dataset ts).map fun ds =>
    split_loop ds.images ds.numeric_labels split_point indices 0

/-- The parallel-array invariant of `imagenet_dataset`: the three sequences
have equal length. -/
def balanced (ds : imagenet_dataset) : Prop :=
  ds.images.length = ds.labels.length ∧
    ds.labels.length = ds.numeric_labels.length

/-! Helper lemmas. -/

theorem mem_scan_files {info : imagenet_info} {files : List FileName}
    {label : FileName} {k : Nat} :
    info ∈ scan_files files label k ↔
      info.filename ∈ files ∧ is_jpg_file info.filename = true ∧
        info.label = label ∧ info.numeric_label = k := by
  induction files with
  | nil => simp [scan_files]
  | cons f rest ih =>
    simp only [scan_files, List.mem_cons]
    by_cases hf : is_jpg_file f = true
    · simp only [hf, if_true, List.mem_cons, ih]
      constructor
      · rintro (rfl | ⟨h1, h2, h3, h4⟩)
        · exact ⟨Or.inl rfl, hf, rfl, rfl⟩
        · exact ⟨Or.inr h1, h2, h3, h4⟩
      · rintro ⟨h1 | h1, h2, h3, h4⟩
        · left
          cases info
          simp_all
        · exact Or.inr ⟨h1, h2, h3, h4⟩
    · simp only [Bool.not_eq_true] at hf
      simp only [hf, Bool.false_eq_true, if_false, ih]
      constructor
      · rintro ⟨h1, h2, h3, h4⟩
        exact ⟨Or.inr h1, h2, h3, h4⟩
      · rintro ⟨h1 | h1, h2, h3, h4⟩
        · rw [h1, hf] at h2
          cases h2
        · exact ⟨h1, h2, h3, h4⟩

theorem scan_dirs_eq_enumFrom (l : List dir_entry) (k : Nat) :
    scan_dirs l k =
      (List.enumFrom k l).flatMap
        (fun p => scan_files p.2.files (extract_desc_class p.2.name) p.1) := by
  induction l generalizing k with
  | nil => simp [scan_dirs]
  | cons d rest ih => simp [scan_dirs, List.enumFrom_cons, ih]

theorem name_le_trans (a b c : dir_entry) (hab : name_le a b = true)
    (hbc : name_le b c = true) : name_le a c = true := by
  simp only [name_le, decide_eq_true_eq] at *
  exact le_trans hab hbc

theorem name_le_total (a b : dir_entry) : (name_le a b || name_le b a) = true := by
  simp only [name_le]
  rcases le_total a.name b.name with h | h <;> simp [h]

/-! Round-trip lemmas for the serialization model. -/

theorem read_nat_append (n : Nat) (rest : List Token) :
    read_nat (serialize_nat n ++ rest) = some (n, rest) := rfl

theorem read_char_append (c : Char) (rest : List Token) :
    read_char (Token.ch c :: rest) = some (c, rest) := rfl

theorem read_count_append {α : Type} (enc : α → List Token)
    (readElem : List Token → Option (α × List Token))
    (helem : ∀ (x : α) (rest : List Token), readElem (enc x ++ rest) = some (x, rest))
    (xs : List α) (rest : List Token) :
    read_count readElem xs.length (xs.flatMap enc ++ rest) = some (xs, rest) := by
  induction xs generalizing rest with
  | nil => simp [read_count]
  | cons x xs ih =>
    simp only [List.length_cons, List.flatMap_cons, List.append_assoc, read_count]
    rw [helem]
    simp [ih]

theorem read_vec_append {α : Type} (enc : α → List Token)
    (readElem : List Token → Option (α × List Token))
    (helem : ∀ (x : α) (rest : List Token), readElem (enc x ++ rest) = some (x, rest))
    (xs : List α) (rest : List Token) :
    read_vec readElem (serialize_vec enc xs ++ rest) = some (xs, rest) := by
  simp only [serialize_vec, read_vec, List.cons_append, read_nat, Option.bind]
  exact read_count_append enc readElem helem xs rest

theorem map_ch_eq_flatMap (s : FileName) :
    s.map Token.ch = s.flatMap (fun c => [Token.ch c]) := by
  induction s with
  | nil => rfl
  | cons c s ih => simp [ih]

theorem read_string_append (s : FileName) (rest : List Token) :
    read_string (serialize_string s ++ rest) = some (s, rest) := by
  have h : serialize_string s = serialize_vec (fun c => [Token.ch c]) s := by
    simp [serialize_string, serialize_vec, map_ch_eq_flatMap]
  rw [h]
  exact read_vec_append (fun c => [Token.ch c]) read_char
    (fun c rest => rfl) s rest

theorem read_pixel_append (p : rgb_pixel) (rest : List Token) :
    read_pixel (serialize_pixel p ++ rest) = some (p, rest) := by
  cases p
  rfl

theorem read_row_append (row : List rgb_pixel) (rest : List Token) :
    read_row (serialize_row row ++ rest) = some (row, rest) :=
  read_vec_append serialize_pixel read_pixel read_pixel_append row rest

theorem read_image_append (img : Image) (rest : List Token) :
    read_image (serialize_image img ++ rest) = some (img, rest) := by
  cases img with
  | mk nr nc data =>
    show read_image (Token.nat nr :: Token.nat nc ::
      (serialize_vec serialize_row data ++ rest)) = _
    simp only [read_image, read_nat, Option.bind_eq_bind, Option.some_bind]
    rw [read_vec_append serialize_row read_row read_row_append]
    rfl

/-! Theorems for the claims. -/

/-- C4: serializing the three sequences (images, then labels, then numeric
labels, in that fixed order) and deserializing them in the same order yields
back exactly the same samples — identical pixel content, textual labels and
numeric labels, in the original order. -/
theorem serialize_deserialize_roundtrip (ds : imagenet_dataset) :
    deserialize_dataset (serialize_dataset ds) = some ds := by
  cases ds with
  | mk images labels numeric_labels =>
    have h3 : read_vec read_nat (serialize_vec serialize_nat numeric_labels) =
        some (numeric_labels, []) := by
      rw [← List.append_nil (serialize_vec serialize_nat numeric_labels)]
      exact read_vec_append serialize_nat read_nat read_nat_append _ _
    simp only [serialize_dataset, deserialize_dataset, List.append_assoc,
      Option.bind_eq_bind]
    rw [read_vec_append serialize_image read_image read_image_append]
    simp only [Option.some_bind]
    rw [read_vec_append serialize_string read_string read_string_append]
    simp only [Option.some_bind]
    rw [h3]
    rfl

/-- C8: when the decoded image already has the target dimensions,
`load_and_resize_image` returns it unchanged (no resample pass); when the
dimensions differ, the result is the bilinear resample and has exactly the
target dimensions. -/
theorem load_and_resize_dims_and_passthrough (img : Image) (rows cols : Nat) :
    (img.nr = rows ∧ img.nc = cols → load_and_resize_image img rows cols = img) ∧
    (img.nr ≠ rows ∨ img.nc ≠ cols →
      load_and_resize_image img rows cols = resize_image_bilinear img rows cols ∧
      (load_and_resize_image img rows cols).nr = rows ∧
      (load_and_resize_image img rows cols).nc = cols) := by
  constructor
  · rintro ⟨h1, h2⟩
    simp [load_and_resize_image, h1, h2]
  · intro h
    have heq : load_and_resize_image img rows cols =
        resize_image_bilinear img rows cols := by
      simp only [load_and_resize_image, if_pos h]
    exact ⟨heq, by simp [heq, resize_image_bilinear], by simp [heq, resize_image_bilinear]⟩

/-- C8 witness: a 1×1 image at target 1×1 passes through unchanged, and at
target 2×3 the result has 2 rows. -/
theorem load_and_resize_dims_and_passthrough_witness :
    load_and_resize_image ⟨1, 1, [[⟨0, 0, 0⟩]]⟩ 1 1 = ⟨1, 1, [[⟨0, 0, 0⟩]]⟩ ∧
    (load_and_resize_image ⟨1, 1, [[⟨0, 0, 0⟩]]⟩ 2 3).nr = 2 :=
  ⟨(load_and_resize_dims_and_passthrough ⟨1, 1, [[⟨0, 0, 0⟩]]⟩ 1 1).1 ⟨rfl, rfl⟩,
    ((load_and_resize_dims_and_passthrough ⟨1, 1, [[⟨0, 0, 0⟩]]⟩ 2 3).2
      (Or.inl (by decide))).2.1⟩

/-- C9: when the scanner returns an empty listing, `create_imagenet_dataset`
fails with the descriptive error and produces no serialized output. -/
theorem empty_listing_fails_without_output
    (read_image_file : FileName → Option Image) (flag : Nat → Bool)
    (images_folder : FileName) (dirs : List dir_entry)
    (resize_rows resize_cols : Nat)
    (h : get_imagenet_listing dirs = []) :
    create_imagenet_dataset read_image_file flag images_folder dirs
        resize_rows resize_cols =
      Except.error ("No images found in directory: ".toList ++ images_folder) := by
  simp [create_imagenet_dataset, h]

/-- C9 witness: an empty directory tree yields the fatal error. -/
theorem empty_listing_fails_without_output_witness :
    create_imagenet_dataset (fun _ => none) (fun _ => false) "d".toList [] 224 224 =
      Except.error ("No images found in directory: ".toList ++ "d".toList) :=
  empty_listing_fails_without_output (fun _ => none) (fun _ => false)
    "d".toList [] 224 224
    (by simp [get_imagenet_listing, sort_dirs, scan_dirs])

/-- C10: for a directory name with no underscore, `find` returns `npos`,
`npos + 1` wraps to 0 in `size_t`, and `extract_desc_class` returns the whole
name; the scanner then uses that full name as the textual label. -/
theorem no_underscore_full_name_label (dir_name : FileName)
    (h : '_' ∉ dir_name) :
    extract_desc_class dir_name = dir_name ∧
    ∀ (files : List FileName) (k : Nat) (info : imagenet_info),
      info ∈ scan_dirs [⟨dir_name, files⟩] k → info.label = dir_name := by
  have hfind : dir_name.findIdx? (fun c => c = '_') = none := by
    rw [List.findIdx?_eq_none_iff]
    intro x hx
    simp only [decide_eq_false_iff_not]
    intro hx'
    exact h (hx' ▸ hx)
  have hext : extract_desc_class dir_name = dir_name := by
    unfold extract_desc_class
    rw [hfind]
    simp [npos]
  refine ⟨hext, ?_⟩
  intro files k info hmem
  simp only [scan_dirs, List.append_nil] at hmem
  exact (mem_scan_files.mp hmem).2.2.1.trans hext

/-- C10 witness: a directory named without an underscore keeps its full
name as a label. -/
theorem no_underscore_full_name_label_witness :
    extract_desc_class "nocat".toList = "nocat".toList :=
  (no_underscore_full_name_label "nocat".toList (by decide)).1

/-- C1: the listing equals, record for record, the concatenation over the
name-sorted subdirectory list of each subdirectory's selected files tagged
with that subdirectory's position (`List.enum` index) as the numeric label —
so every subdirectory advances the label by exactly one, whether it
contributes zero or many records; moreover the sorted list is ascending in
name and is a permutation of the input subdirectories. -/
theorem numeric_label_eq_sorted_rank (dirs : List dir_entry) :
    get_imagenet_listing dirs =
      (List.enum (sort_dirs dirs)).flatMap
        (fun p => scan_files p.2.files (extract_desc_class p.2.name) p.1) ∧
    List.Pairwise (fun a b : dir_entry => a.name ≤ b.name) (sort_dirs dirs) ∧
    (sort_dirs dirs).Perm dirs := by
  refine ⟨?_, ?_, List.mergeSort_perm dirs name_le⟩
  · rw [get_imagenet_listing, scan_dirs_eq_enumFrom, List.enum_eq_enumFrom]
  · exact (List.sorted_mergeSort name_le_trans name_le_total dirs).imp
      (fun h => by simpa only [name_le, decide_eq_true_eq] using h)

/-- Helper: the code's inner-loop condition, in terms of a case-insensitive
suffix test: a file passes iff its name is longer than 4 characters and its
lowercased name ends with `.jpg`. -/
theorem is_jpg_file_iff (f : FileName) :
    is_jpg_file f = true ↔
      4 < f.length ∧ (".jpg".toList).isSuffixOf (tolower f) = true := by
  have hjl : (".jpg".toList).length = 4 := rfl
  have hlen : (tolower f).length = f.length := by simp [tolower]
  have hmap : tolower (f.drop (f.length - 4)) = (tolower f).drop (f.length - 4) := by
    simp [tolower, List.map_drop]
  simp only [is_jpg_file, Bool.and_eq_true, decide_eq_true_eq,
    List.isSuffixOf_iff_suffix, List.suffix_iff_eq_drop, hjl, hlen, hmap]
  constructor
  · rintro ⟨h1, h2⟩
    exact ⟨h1, h2.symm⟩
  · rintro ⟨h1, h2⟩
    exact ⟨h1, h2.symm⟩

theorem mem_scan_dirs_jpg {info : imagenet_info} {l : List dir_entry} {k : Nat}
    (h : info ∈ scan_dirs l k) : is_jpg_file info.filename = true := by
  induction l generalizing k with
  | nil => simp [scan_dirs] at h
  | cons d rest ih =>
    simp only [scan_dirs, List.mem_append] at h
    rcases h with h | h
    · exact (mem_scan_files.mp h).2.1
    · exact ih h

theorem scan_dirs_complete {l : List dir_entry} {d : dir_entry} {f : FileName}
    (hd : d ∈ l) (hf : f ∈ d.files) (hjpg : is_jpg_file f = true) (k : Nat) :
    ∃ info ∈ scan_dirs l k, info.filename = f := by
  induction l generalizing k with
  | nil => cases hd
  | cons d0 rest ih =>
    rcases List.mem_cons.mp hd with rfl | hd'
    · refine ⟨⟨f, extract_desc_class d.name, k⟩, ?_, rfl⟩
      simp only [scan_dirs, List.mem_append]
      exact Or.inl (mem_scan_files.mpr ⟨hf, hjpg, rfl, rfl⟩)
    · obtain ⟨info, hmem, hname⟩ := ih hd' (k + 1)
      refine ⟨info, ?_, hname⟩
      simp only [scan_dirs, List.mem_append]
      exact Or.inr hmem

/-- C5 counterexample: the file named exactly `.jpg` ends with `.jpg`
(case-insensitively), yet the scanner excludes it — its name is not longer
than 4 characters, so the claimed `iff` fails. -/
theorem jpg_filter_iff_counterexample :
    (".jpg".toList).isSuffixOf (tolower ".jpg".toList) = true ∧
    get_imagenet_listing [⟨"n01_cat".toList, [".jpg".toList]⟩] = [] := by
  constructor
  · decide
  · simp only [get_imagenet_listing, sort_dirs, List.mergeSort_singleton,
      scan_dirs, scan_files]
    norm_num
    decide

/-- C5 (amended): a file of a scanned class subdirectory appears in the
scanner's output if and only if its name is longer than 4 characters and
ends with `.jpg` compared case-insensitively. -/
theorem jpg_filter_amended (dirs : List dir_entry) (d : dir_entry)
    (f : FileName) (hd : d ∈ dirs) (hf : f ∈ d.files) :
    (∃ info ∈ get_imagenet_listing dirs, info.filename = f) ↔
      4 < f.length ∧ (".jpg".toList).isSuffixOf (tolower f) = true := by
  rw [← is_jpg_file_iff]
  constructor
  · rintro ⟨info, hmem, rfl⟩
    exact mem_scan_dirs_jpg hmem
  · intro hjpg
    have hd' : d ∈ sort_dirs dirs :=
      ((List.mergeSort_perm dirs name_le).mem_iff).mpr hd
    exact scan_dirs_complete hd' hf hjpg 0

/-- C5 witness: in a directory holding `a.jpg`, that file is listed and its
name passes the suffix-and-length test. -/
theorem jpg_filter_amended_witness :
    ((∃ info ∈ get_imagenet_listing [⟨"n01_cat".toList, ["a.jpg".toList]⟩],
        info.filename = "a.jpg".toList) ↔
      4 < ("a.jpg".toList).length ∧
        (".jpg".toList).isSuffixOf (tolower "a.jpg".toList) = true) :=
  jpg_filter_amended [⟨"n01_cat".toList, ["a.jpg".toList]⟩]
    ⟨"n01_cat".toList, ["a.jpg".toList]⟩ "a.jpg".toList
    (List.mem_singleton.mpr rfl) (List.mem_singleton.mpr rfl)

/-- Helper: the ingestion loop halted by a flag that is false before `k` and
true at `k` computes the same dataset as an unhalted loop over the first `k`
records only. -/
theorem ingest_loop_stops_at_flag (decode : FileName → Option Image)
    (flag : Nat → Bool) (l : List imagenet_info) (k i : Nat)
    (acc : imagenet_dataset)
    (hbefore : ∀ j, j < k → flag (i + j) = false)
    (hat : flag (i + k) = true) :
    ingest_loop decode flag l i acc =
      ingest_loop decode (fun _ => false) (l.take k) i acc := by
  induction l generalizing k i acc with
  | nil => simp [ingest_loop]
  | cons info rest ih =>
    cases k with
    | zero =>
      have h0 : flag i = true := by simpa using hat
      simp [ingest_loop, h0]
    | succ k' =>
      have h0 : flag i = false := by simpa using hbefore 0 (Nat.succ_pos k')
      simp only [List.take_succ_cons, ingest_loop, h0, Bool.false_eq_true,
        if_false]
      have hb' : ∀ j, j < k' → flag (i + 1 + j) = false := by
        intro j hj
        have h := hbefore (j + 1) (by omega)
        rwa [show i + (j + 1) = i + 1 + j by omega] at h
      have ha' : flag (i + 1 + k') = true := by
        rwa [show i + (k' + 1) = i + 1 + k' by omega] at hat
      cases hdec : decode info.filename with
      | some img => exact ih k' (i + 1) _ hb' ha'
      | none => exact ih k' (i + 1) acc hb' ha'

/-- C6: if the cancellation flag is false before iteration `k` and true at
iteration `k`, the builder's loop stops before processing record `k`, and
the serialization step still runs, writing exactly the dataset accumulated
from the first `k` records. -/
theorem cancellation_flushes_partial_dataset
    (read_image_file : FileName → Option Image) (flag : Nat → Bool)
    (images_folder : FileName) (dirs : List dir_entry)
    (resize_rows resize_cols k : Nat)
    (hne : get_imagenet_listing dirs ≠ [])
    (hbefore : ∀ j, j < k → flag j = false) (hat : flag k = true) :
    create_imagenet_dataset read_image_file flag images_folder dirs
        resize_rows resize_cols =
      Except.ok (serialize_dataset
        (ingest_loop
          (fun f => (read_image_file f).map
            fun img => load_and_resize_image img resize_rows resize_cols)
          (fun _ => false) ((get_imagenet_listing dirs).take k)
          0 empty_dataset)) := by
  have hne' : (get_imagenet_listing dirs).isEmpty = false :=
    List.isEmpty_eq_false.mpr hne
  simp only [create_imagenet_dataset, hne', Bool.false_eq_true, if_false]
  rw [ingest_loop_stops_at_flag _ flag _ k 0 _
    (fun j hj => by simpa using hbefore j hj) (by simpa using hat)]

/-- C6 witness: with the flag already set at iteration 0, the builder still
writes, and writes the empty accumulated dataset. -/
theorem cancellation_flushes_partial_dataset_witness :
    create_imagenet_dataset (fun _ => some ⟨1, 1, [[⟨0, 0, 0⟩]]⟩)
        (fun _ => true) "f".toList [⟨"n01_cat".toList, ["a.jpg".toList]⟩] 1 1 =
      Except.ok (serialize_dataset
        (ingest_loop
          (fun f => ((fun _ => some (⟨1, 1, [[⟨0, 0, 0⟩]]⟩ : Image)) f).map
            fun img => load_and_resize_image img 1 1)
          (fun _ => false)
          ((get_imagenet_listing [⟨"n01_cat".toList, ["a.jpg".toList]⟩]).take 0)
          0 empty_dataset)) :=
  cancellation_flushes_partial_dataset _ _ "f".toList _ 1 1 0
    (by
      simp only [get_imagenet_listing, sort_dirs, List.mergeSort_singleton,
        scan_dirs, scan_files]
      norm_num
      decide)
    (fun j hj => absurd hj (Nat.not_lt_zero j)) rfl

/-- Helper: the parallel-array invariant is preserved by the ingestion
loop. -/
theorem balanced_ingest_loop (decode : FileName → Option Image)
    (flag : Nat → Bool) (l : List imagenet_info) :
    ∀ (i : Nat) (acc : imagenet_dataset),
      balanced acc → balanced (ingest_loop decode flag l i acc) := by
  induction l with
  | nil =>
    intro i acc h
    simpa [ingest_loop] using h
  | cons info rest ih =>
    intro i acc h
    simp only [ingest_loop]
    by_cases hf : flag i = true
    · simpa [hf] using h
    · simp only [Bool.not_eq_true] at hf
      simp only [hf, Bool.false_eq_true, if_false]
      cases hdec : decode info.filename with
      | some img =>
        refine ih (i + 1) _ ?_
        rcases h with ⟨h1, h2⟩
        exact ⟨by simp [push_sample, h1], by simp [push_sample, h2]⟩
      | none => exact ih (i + 1) acc h

/-- C7: starting from a dataset whose three sequences have equal length, the
ingestion loop keeps them equal at every point; a successful iteration
appends exactly one element to each of the three sequences, and a failed
decode appends to none of them and leaves the accumulator untouched. -/
theorem parallel_sequences_invariant (decode : FileName → Option Image)
    (flag : Nat → Bool) (l : List imagenet_info) (i : Nat)
    (acc : imagenet_dataset) (h : balanced acc) :
    balanced (ingest_loop decode flag l i acc) ∧
    (∀ (img : Image) (lab : FileName) (nl : Nat),
      (push_sample acc img lab nl).images.length = acc.images.length + 1 ∧
      (push_sample acc img lab nl).labels.length = acc.labels.length + 1 ∧
      (push_sample acc img lab nl).numeric_labels.length =
        acc.numeric_labels.length + 1) ∧
    (∀ (info : imagenet_info) (rest : List imagenet_info),
      flag i = false → decode info.filename = none →
        ingest_loop decode flag (info :: rest) i acc =
          ingest_loop decode flag rest (i + 1) acc) := by
  refine ⟨balanced_ingest_loop decode flag l i acc h, ?_, ?_⟩
  · intro img lab nl
    refine ⟨?_, ?_, ?_⟩ <;> simp [push_sample]
  · intro info rest hflag hdec
    simp [ingest_loop, hflag, hdec]

/-- C7 witness: a run over one decodable record from the empty dataset keeps
the three sequences at equal length. -/
theorem parallel_sequences_invariant_witness :
    balanced (ingest_loop (fun _ => some ⟨1, 1, [[⟨0, 0, 0⟩]]⟩)
      (fun _ => false) [⟨"a.jpg".toList, "cat".toList, 0⟩] 0 empty_dataset) :=
  (parallel_sequences_invariant (fun _ => some ⟨1, 1, [[⟨0, 0, 0⟩]]⟩)
    (fun _ => false) [⟨"a.jpg".toList, "cat".toList, 0⟩] 0 empty_dataset
    ⟨rfl, rfl⟩).1

/-- Helper: the split loop distributes every index to exactly one side, so
the two output lengths always add up to the number of indices. -/
theorem split_loop_length (images : List Image) (nlabels : List Nat)
    (sp : Nat) (idxs : List Nat) (i : Nat) :
    (split_loop images nlabels sp idxs i).1.length +
        (split_loop images nlabels sp idxs i).2.2.1.length = idxs.length ∧
    (split_loop images nlabels sp idxs i).2.1.length +
        (split_loop images nlabels sp idxs i).2.2.2.length = idxs.length := by
  induction idxs generalizing i with
  | nil => simp [split_loop]
  | cons idx rest ih =>
    obtain ⟨h1, h2⟩ := ih (i + 1)
    by_cases hi : i < sp
    · constructor <;> simp only [split_loop, if_pos hi, List.length_cons] <;>
        omega
    · constructor <;> simp only [split_loop, if_neg hi, List.length_cons] <;>
        omega

/-- Helper: the training labels followed by the testing labels are a
permutation of the labels looked up at the shuffled indices. -/
theorem split_loop_labels_perm (images : List Image) (nlabels : List Nat)
    (sp : Nat) (idxs : List Nat) (i : Nat) :
    ((split_loop images nlabels sp idxs i).2.1 ++
        (split_loop images nlabels sp idxs i).2.2.2).Perm
      (idxs.map fun idx => nlabels.getD idx 0) := by
  induction idxs generalizing i with
  | nil => simp [split_loop]
  | cons idx rest ih =>
    by_cases hi : i < sp
    · simp only [split_loop, if_pos hi, List.map_cons, List.cons_append]
      exact (ih (i + 1)).cons _
    · simp only [split_loop, if_neg hi, List.map_cons]
      exact List.perm_middle.trans ((ih (i + 1)).cons _)

/-- Helper: reading a list back at indices `0..length` reproduces it. -/
theorem map_getD_range (l : List Nat) :
    (List.range l.length).map (fun i => l.getD i 0) = l := by
  induction l with
  | nil => simp
  | cons a l ih =>
    rw [List.length_cons, List.range_succ_eq_map, List.map_cons,
      List.map_map]
    rw [show ((fun i => (a :: l).getD i 0) ∘ Nat.succ) =
      (fun i => l.getD i 0) from funext fun i => List.getD_cons_succ]
    rw [ih]
    simp

/-- C2: for a deserialized dataset of `N` samples and a shuffled index list
that is a permutation of `0..N-1`, the split produced by
`load_stable_imagenet_1k` satisfies `len(train) + len(test) = N`, and the
multiset of numeric labels across the two outputs equals the multiset of
numeric labels of the source — for every split point. -/
theorem split_preserves_count_and_labels (ts : List Token)
    (indices : List Nat) (split_point : Nat) (ds : imagenet_dataset)
    (training_images : List Image) (training_labels : List Nat)
    (testing_images : List Image) (testing_labels : List Nat)
    (hdes : deserialize_dataset ts = some ds)
    (hperm : indices.Perm (List.range ds.images.length))
    (hlen : ds.numeric_labels.length = ds.images.length)
    (hrun : load_stable_imagenet_1k ts indices split_point =
      some (training_images, training_labels, testing_images,
        testing_labels)) :
    training_images.length + testing_images.length = ds.images.length ∧
    ((training_labels ++ testing_labels : List Nat) : Multiset Nat) =
      (ds.numeric_labels : Multiset Nat) := by
  rw [load_stable_imagenet_1k, hdes, Option.map_some'] at hrun
  have heq := Option.some.inj hrun
  have hti : (split_loop ds.images ds.numeric_labels split_point indices 0).1 =
      training_images := congrArg Prod.fst heq
  have htl :
      (split_loop ds.images ds.numeric_labels split_point indices 0).2.1 =
      training_labels := congrArg (fun q => q.2.1) heq
  have hsi :
      (split_loop ds.images ds.numeric_labels split_point indices 0).2.2.1 =
      testing_images := congrArg (fun q => q.2.2.1) heq
  have hsl :
      (split_loop ds.images ds.numeric_labels split_point indices 0).2.2.2 =
      testing_labels := congrArg (fun q => q.2.2.2) heq
  have hlen_idx : indices.length = ds.images.length := by
    simpa using hperm.length_eq
  constructor
  · obtain ⟨h1, _⟩ :=
      split_loop_length ds.images ds.numeric_labels split_point indices 0
    rw [hti, hsi] at h1
    omega
  · rw [Multiset.coe_eq_coe]
    have hmap : (List.range ds.images.length).map
        (fun i => ds.numeric_labels.getD i 0) = ds.numeric_labels := by
      rw [← hlen]
      exact map_getD_range ds.numeric_labels
    have hperm2 := hperm.map fun idx => ds.numeric_labels.getD idx 0
    rw [hmap] at hperm2
    have hchain := (split_loop_labels_perm ds.images ds.numeric_labels
      split_point indices 0).trans hperm2
    rw [htl, hsl] at hchain
    exact hchain

/-- C2 witness: a two-sample dataset, serialized and split with the shuffled
indices `[1, 0]` at split point 1, keeps both counts and the label
multiset. -/
theorem split_preserves_count_and_labels_witness :
    ([(⟨1, 1, [[⟨0, 0, 0⟩]]⟩ : Image)]).length +
        ([(⟨1, 1, [[⟨0, 0, 0⟩]]⟩ : Image)]).length = 2 ∧
    (([7, 5] : List Nat) : Multiset Nat) = (([5, 7] : List Nat) : Multiset Nat) := by
  have h := split_preserves_count_and_labels
    (serialize_dataset ⟨[⟨1, 1, [[⟨0, 0, 0⟩]]⟩, ⟨1, 1, [[⟨0, 0, 0⟩]]⟩],
      ["a".toList, "b".toList], [5, 7]⟩)
    [1, 0] 1
    ⟨[⟨1, 1, [[⟨0, 0, 0⟩]]⟩, ⟨1, 1, [[⟨0, 0, 0⟩]]⟩],
      ["a".toList, "b".toList], [5, 7]⟩
    [⟨1, 1, [[⟨0, 0, 0⟩]]⟩] [7] [⟨1, 1, [[⟨0, 0, 0⟩]]⟩] [5]
    (by decide) (by decide) rfl (by decide)
  exact ⟨h.1, h.2⟩

end DlibImagenet
